import Mathlib

/-!
Verification of the real-time audio streaming engine of the
sample-virtual-banking-assistant repository.

The development shallowly embeds the two source files that implement the
engine:

* frontend/react-web/public/audio-processor.js : the AudioWorklet playback
  jitter buffer (class AudioProcessor);
* frontend/react-web/src/Content.js : the PCM codec (floatToPcm16,
  pcm16ToFloat), the capture path (processor.onaudioprocess) and the
  WebSocket message handler (wsRef.current.onmessage), i.e. the session
  controller.

Audio samples are modelled as rationals.  Every floating point operation
performed by the source on sample values is exact in IEEE double precision
arithmetic on the inputs that occur: clamping is comparison only,
multiplying a float by 32767 or 32768 needs at most 24 + 15 significand
bits, and dividing a 16-bit integer by 32768 is exact.  Hence the rational
model coincides with the JavaScript float semantics on representable
inputs.  Bytes are modelled as naturals below 256 and 16-bit PCM samples
as integers.
-/

/-- Sample rate constant from Content.js (const SAMPLE_RATE = 16000).  The
AudioContext is created with this rate, so the worklet global sampleRate
equals it. -/
def SAMPLE_RATE : ℕ := 16000

/-- The AudioWorkletGlobalScope sampleRate global used by
audio-processor.js. -/
def sampleRate : ℕ := SAMPLE_RATE

/-! ## PCM codec (Content.js, floatToPcm16 and pcm16ToFloat) -/

/-- Truncation toward zero, the JavaScript ToIntegerOrInfinity conversion
applied to a finite number. -/
def jsTrunc (q : ℚ) : ℤ := if q < 0 then ⌈q⌉ else ⌊q⌋

/-- The JavaScript ToInt16 conversion performed by an Int16Array element
store: truncate toward zero, reduce modulo 2^16, re-interpret as a signed
16-bit value. -/
def toInt16 (q : ℚ) : ℤ :=
  if jsTrunc q % 65536 < 32768 then jsTrunc q % 65536 else jsTrunc q % 65536 - 65536

/-- Clamping `Math.max(-1, Math.min(1, x))` from floatToPcm16. -/
def clamp1 (s : ℚ) : ℚ := max (-1) (min 1 s)

/-- Loop body of floatToPcm16 (Content.js lines 59-66):
`const s = Math.max(-1, Math.min(1, input[i]));
 output[i] = s < 0 ? s * 0x8000 : s * 0x7FFF;`
with the Int16Array element store applying ToInt16. -/
def quantizeSample (s : ℚ) : ℤ :=
  toInt16 (if clamp1 s < 0 then clamp1 s * 32768 else clamp1 s * 32767)

/-- floatToPcm16 (Content.js): elementwise conversion of a float frame to
16-bit PCM. -/
def floatToPcm16 (input : List ℚ) : List ℤ := input.map quantizeSample

/-- One step of pcm16ToFloat (Content.js lines 74-82): read a little-endian
int16 from two bytes, `dataView.getInt16(i * 2, true)`. -/
def getInt16LE (b0 b1 : ℕ) : ℤ :=
  if (b0 + 256 * b1 : ℤ) < 32768 then (b0 + 256 * b1 : ℤ)
  else (b0 + 256 * b1 : ℤ) - 65536

/-- Sample-level dequantization `int16 / 32768.0` from pcm16ToFloat. -/
def dequantizeSample (v : ℤ) : ℚ := (v : ℚ) / 32768

/-- pcm16ToFloat (Content.js): consume the byte sequence two bytes at a
time, little-endian, dividing each int16 by 32768.0.  On an odd byte
count the source silently ignores the dangling final byte: the length
new Float32Array(buffer.byteLength / 2) is truncated by the ECMAScript
ToIndex conversion, and the getInt16 loop reads only whole sample pairs;
the wildcard branch models exactly that. -/
def pcm16ToFloat : List ℕ → List ℚ
  | b0 :: b1 :: rest => dequantizeSample (getInt16LE b0 b1) :: pcm16ToFloat rest
  | _ => []

/-! ## Uplink serialization (Content.js, processor.onaudioprocess) -/

/-- The unsigned 16-bit pattern of an int16 value as written by
`view.setInt16(index * 2, value, true)`. -/
def uint16OfInt (v : ℤ) : ℕ := (v % 65536).toNat

/-- Little-endian byte pair of one 16-bit PCM sample. -/
def int16LEBytes (v : ℤ) : List ℕ :=
  [uint16OfInt v % 256, uint16OfInt v / 256]

/-- The byte image of a PCM block written sample by sample, little-endian,
by the capture handler. -/
def pcmToLEBytes (pcm : List ℤ) : List ℕ := (pcm.map int16LEBytes).flatten

/-! ## Base64 transport coding (platform btoa and atob, as invoked by
Content.js) -/

/-- The standard base64 alphabet. -/
def base64Alphabet : List Char :=
  String.toList "ABCDEFGHIJKLMNOPQRSTUVWXYZabcdefghijklmnopqrstuvwxyz0123456789+/"

/-- Character of a 6-bit value. -/
def b64Char (n : ℕ) : Char := base64Alphabet.getD n 'A'

/-- btoa: encode bytes in 3-byte groups into 4 base64 characters, padding
the final partial group with = signs. -/
def btoa : List ℕ → List Char
  | a :: b :: c :: rest =>
    let n := a * 65536 + b * 256 + c
    b64Char (n / 262144) :: b64Char (n / 4096 % 64) ::
      b64Char (n / 64 % 64) :: b64Char (n % 64) :: btoa rest
  | [a, b] =>
    let n := a * 65536 + b * 256
    [b64Char (n / 262144), b64Char (n / 4096 % 64), b64Char (n / 64 % 64), '=']
  | [a] =>
    let n := a * 65536
    [b64Char (n / 262144), b64Char (n / 4096 % 64), '=', '=']
  | [] => []

/-- Index of a character in the base64 alphabet, none if it is not a
base64 digit. -/
def b64Value (c : Char) : Option ℕ := base64Alphabet.indexOf? c

/-- Reassemble bytes from a list of 6-bit values whose length is 0, 2 or 3
modulo 4 (forgiving-base64 step of atob); a single leftover digit makes
the input invalid. -/
def atobVals : List ℕ → Option (List ℕ)
  | [] => some []
  | [_] => none
  | [a, b] => some [a * 4 + b / 16]
  | [a, b, c] => some [a * 4 + b / 16, b % 16 * 16 + c / 4]
  | a :: b :: c :: d :: rest =>
    match atobVals rest with
    | none => none
    | some tail => some ((a * 4 + b / 16) :: (b % 16 * 16 + c / 4) :: (c % 4 * 64 + d) :: tail)

/-- ASCII whitespace removed by forgiving-base64. -/
def isB64Space (c : Char) : Bool :=
  c = ' ' || c = '\t' || c = '\n' || c = '\r' || c = Char.ofNat 12

/-- Remove one or two trailing = padding characters. -/
def dropPadding (cs : List Char) : List Char :=
  match cs.reverse with
  | '=' :: '=' :: rest => rest.reverse
  | '=' :: rest => rest.reverse
  | _ => cs

/-- atob, the forgiving-base64 decoder invoked by the media branch of the
message handler: strip ASCII whitespace, strip padding when the length is
a multiple of four, reject any remaining non-alphabet character or a
trailing single digit, otherwise decode; none models the thrown
InvalidCharacterError. -/
def atob (s : String) : Option (List ℕ) :=
  let cs := (String.toList s).filter (fun c => ¬ isB64Space c)
  let cs := if cs.length % 4 = 0 then dropPadding cs else cs
  if (cs.map b64Value).any Option.isNone then none
  else atobVals (cs.filterMap b64Value)

/-! ## Playback jitter buffer (audio-processor.js, class AudioProcessor) -/

/-- The mutable state of the AudioProcessor worklet: the sample buffer and
the playback position (read cursor). -/
structure AudioProcessor where
  buffer : List ℚ
  position : ℕ
deriving DecidableEq

/-- Constructor state: `this.buffer = new Float32Array(0); this.position = 0;`. -/
def initState : AudioProcessor := ⟨[], 0⟩

/-- Messages received on the worklet port.  Content.js posts data messages
(media path), and posts a message of type stop on a control stop envelope.
The worklet constructor installs a handler with branches only for the
types data and clear. -/
inductive PortMsg
  | data (audio : List ℚ)
  | clear
  | stop
deriving DecidableEq

/-- The port.onmessage handler of audio-processor.js (lines 37-49).  A
data message appends to the buffer, a clear message empties the buffer and
resets the position, and any other message type, in particular the stop
message actually posted by Content.js, matches no branch and leaves the
state untouched. -/
def onmessage (st : AudioProcessor) : PortMsg → AudioProcessor
  | .data audio => ⟨st.buffer ++ audio, st.position⟩
  | .clear => ⟨[], 0⟩
  | .stop => st

/-- Result of one process callback: the rendered output block, whether the
needData starvation message was posted, and the successor state. -/
structure PullResult where
  output : List ℚ
  needData : Bool
  state : AudioProcessor
deriving DecidableEq

/-- The process method of audio-processor.js (lines 61-86) for an output
block of length n.  If fewer than n unread samples remain the handler
posts needData and returns without touching state or output (the device
output block is zero-initialized each quantum, hence replicate n 0).
Otherwise it copies n samples from the cursor, advances the cursor, and
afterwards compacts the consumed part once the cursor passed
sampleRate * 2 samples. -/
def process (st : AudioProcessor) (n : ℕ) : PullResult :=
  if (st.buffer.length : ℤ) - (st.position : ℤ) < (n : ℤ) then
    { output := List.replicate n 0, needData := true, state := st }
  else
    let out := (st.buffer.drop st.position).take n
    let pos := st.position + n
    if sampleRate * 2 < pos then
      { output := out, needData := false, state := ⟨st.buffer.drop pos, 0⟩ }
    else
      { output := out, needData := false, state := ⟨st.buffer, pos⟩ }

/-- The unread part of the buffer: everything at or after the cursor. -/
def unread (st : AudioProcessor) : List ℚ := st.buffer.drop st.position

/-- The buffer invariant: the read cursor never passes the logical
length. -/
def bufInv (st : AudioProcessor) : Prop := st.position ≤ st.buffer.length

instance (st : AudioProcessor) : Decidable (bufInv st) := by
  unfold bufInv; infer_instance

/-- Run a sequence of device pulls, collecting the output blocks. -/
def runPulls (st : AudioProcessor) : List ℕ → List (List ℚ) × AudioProcessor
  | [] => ([], st)
  | n :: ns =>
    let r := process st n
    let rest := runPulls r.state ns
    (r.output :: rest.1, rest.2)

/-- Fold a sequence of data messages into the worklet, modelling repeated
appends. -/
def appendMany (st : AudioProcessor) (xss : List (List ℚ)) : AudioProcessor :=
  xss.foldl (fun s xs => onmessage s (.data xs)) st

/-! ## Session controller (Content.js, wsRef.current.onmessage and
processor.onaudioprocess) -/

/-- WebSocket readyState values. -/
inductive WsState
  | Connecting
  | Open
  | Closing
  | Closed
deriving DecidableEq

/-- The capture handler processor.onaudioprocess (Content.js lines
133-145): quantize the input frame, serialize it little-endian, base64
encode it, and send the text on the socket only when a socket exists and
its readyState is OPEN; otherwise nothing is sent and nothing is thrown.
The result models the message put on the uplink, none when no send
happens. -/
def onaudioprocess (input : List ℚ) (ws : Option WsState) : Option (List Char) :=
  let pcm16 := floatToPcm16 input
  let bytes := pcmToLEBytes pcm16
  let base64 := btoa bytes
  match ws with
  | some WsState.Open => some base64
  | _ => none

/-- A parsed downlink envelope, after JSON.parse in the message handler:
the event discriminant selects among stop, media (base64 payload) and
text (speaker tag plus content). -/
inductive Envelope
  | stop
  | media (payload : String)
  | text (speaker content : String)
deriving DecidableEq

/-- Controller-owned state touched by the message handler: the worklet
state, the talking flag, the transcript message list (isMine flag and
text), and whether the socket is open.  No branch of the handler closes
the socket. -/
structure ControllerState where
  worklet : AudioProcessor
  talking : Bool
  transcript : List (Bool × String)
  wsOpen : Bool
deriving DecidableEq

/-- One step of the WebSocket message handler (Content.js lines 185-226).
The returned Bool records whether the catch branch logged a format error
for this envelope.
On stop: post a stop message to the worklet port and set talking false.
On media: decode base64 (atob); on failure the catch logs and nothing
else happens.  On success the bytes are converted by pcm16ToFloat with NO
error on an odd byte count: new Float32Array(byteLength / 2) truncates a
fractional length per the ECMAScript ToIndex conversion, so a dangling
final byte is silently dropped (the wildcard branch of pcm16ToFloat).
When the resulting block is nonempty it is posted to the worklet as a
data message and talking is set true; an empty block does nothing.
On text: append a speaker-tagged entry to the transcript. -/
def stepEnvelope (cs : ControllerState) : Envelope → ControllerState × Bool
  | .stop =>
    ({ cs with worklet := onmessage cs.worklet .stop, talking := false }, false)
  | .media payload =>
    match atob payload with
    | none => (cs, true)
    | some bytes =>
      if 0 < (pcm16ToFloat bytes).length then
        ({ cs with
            worklet := onmessage cs.worklet (.data (pcm16ToFloat bytes)),
            talking := true }, false)
      else (cs, false)
  | .text speaker content =>
    ({ cs with transcript := cs.transcript ++ [(speaker == "user", content)] }, false)

/-- Process a list of envelopes in arrival order. -/
def runEnvelopes (cs : ControllerState) : List Envelope → ControllerState
  | [] => cs
  | e :: es => runEnvelopes (stepEnvelope cs e).1 es

/-! ## Helper lemmas about the jitter buffer -/

theorem length_unread (st : AudioProcessor) :
    (unread st).length = st.buffer.length - st.position := by
  simp [unread]

theorem process_underrun (st : AudioProcessor) (n : ℕ)
    (h : (st.buffer.length : ℤ) - (st.position : ℤ) < (n : ℤ)) :
    process st n = ⟨List.replicate n 0, true, st⟩ := by
  unfold process
  rw [if_pos h]

theorem underrun_iff (st : AudioProcessor) (n : ℕ) (hinv : bufInv st) :
    ((st.buffer.length : ℤ) - (st.position : ℤ) < (n : ℤ)) ↔ (unread st).length < n := by
  have h := length_unread st
  have h2 : st.position ≤ st.buffer.length := hinv
  omega

theorem process_success (st : AudioProcessor) (n : ℕ) (hinv : bufInv st)
    (h : n ≤ (unread st).length) :
    (process st n).output = (unread st).take n ∧
    (process st n).needData = false ∧
    unread (process st n).state = (unread st).drop n ∧
    bufInv (process st n).state ∧
    ((process st n).state.position = st.position + n ∨
      (sampleRate * 2 < st.position + n ∧ (process st n).state.position = 0)) := by
  have hlen := length_unread st
  have h2 : st.position ≤ st.buffer.length := hinv
  have hc : ¬ ((st.buffer.length : ℤ) - (st.position : ℤ) < (n : ℤ)) := by omega
  unfold process
  rw [if_neg hc]
  by_cases hcomp : sampleRate * 2 < st.position + n
  · rw [if_pos hcomp]
    refine ⟨rfl, rfl, ?_, ?_, Or.inr ⟨hcomp, rfl⟩⟩
    · show (st.buffer.drop (st.position + n)).drop 0 = (unread st).drop n
      simp [unread, List.drop_drop, Nat.add_comm]
    · show (0 : ℕ) ≤ _
      exact Nat.zero_le _
  · rw [if_neg hcomp]
    refine ⟨rfl, rfl, ?_, ?_, Or.inl rfl⟩
    · show st.buffer.drop (st.position + n) = (unread st).drop n
      simp [unread, List.drop_drop, Nat.add_comm]
    · show st.position + n ≤ st.buffer.length
      omega

theorem bufInv_process (st : AudioProcessor) (n : ℕ) (hinv : bufInv st) :
    bufInv (process st n).state := by
  by_cases h : (st.buffer.length : ℤ) - (st.position : ℤ) < (n : ℤ)
  · rw [process_underrun st n h]
    exact hinv
  · have hn : n ≤ (unread st).length := by
      have := length_unread st
      have h2 : st.position ≤ st.buffer.length := hinv
      omega
    exact (process_success st n hinv hn).2.2.2.1

theorem unread_append (st : AudioProcessor) (xs : List ℚ) (hinv : bufInv st) :
    unread (onmessage st (.data xs)) = unread st ++ xs := by
  simp only [unread, onmessage]
  exact List.drop_append_of_le_length hinv

theorem bufInv_append (st : AudioProcessor) (xs : List ℚ) (hinv : bufInv st) :
    bufInv (onmessage st (.data xs)) := by
  simp only [bufInv, onmessage, List.length_append]
  exact Nat.le_trans hinv (Nat.le_add_right _ _)

theorem appendMany_spec (xss : List (List ℚ)) :
    ∀ st : AudioProcessor, bufInv st →
      unread (appendMany st xss) = unread st ++ xss.flatten ∧
      bufInv (appendMany st xss) := by
  induction xss with
  | nil => intro st hinv; simp [appendMany, hinv]
  | cons xs xss ih =>
    intro st hinv
    have h1 := unread_append st xs hinv
    have h2 := bufInv_append st xs hinv
    have h3 := ih (onmessage st (.data xs)) h2
    constructor
    · show unread (appendMany (onmessage st (.data xs)) xss) = _
      rw [h3.1, h1]
      simp
    · exact h3.2

theorem runPulls_spec (ns : List ℕ) :
    ∀ st : AudioProcessor, bufInv st → ns.sum ≤ (unread st).length →
      ((runPulls st ns).1.flatten = (unread st).take ns.sum ∧
       (runPulls st ns).1.map List.length = ns ∧
       unread (runPulls st ns).2 = (unread st).drop ns.sum ∧
       bufInv (runPulls st ns).2) := by
  induction ns with
  | nil => intro st hinv _; simp [runPulls, hinv]
  | cons n ns ih =>
    intro st hinv hsum
    rw [List.sum_cons] at hsum
    have hn : n ≤ (unread st).length := Nat.le_trans (Nat.le_add_right _ _) hsum
    obtain ⟨hout, _, hunread, hinv2, _⟩ := process_success st n hinv hn
    have hlen2 : ns.sum ≤ (unread (process st n).state).length := by
      rw [hunread, List.length_drop]
      omega
    obtain ⟨ih1, ih2, ih3, ih4⟩ := ih (process st n).state hinv2 hlen2
    refine ⟨?_, ?_, ?_, ih4⟩
    · show ((process st n).output :: (runPulls (process st n).state ns).1).flatten = _
      rw [List.flatten_cons, ih1, hout, hunread, List.sum_cons, List.take_add]
    · show ((process st n).output :: (runPulls (process st n).state ns).1).map List.length = _
      rw [List.map_cons, ih2, hout]
      congr 1
      rw [List.length_take]
      omega
    · show unread (runPulls (process st n).state ns).2 = _
      rw [ih3, hunread, List.drop_drop, List.sum_cons]

theorem process_congr (st₁ st₂ : AudioProcessor) (n : ℕ)
    (h1 : bufInv st₁) (h2 : bufInv st₂) (he : unread st₁ = unread st₂) :
    (process st₁ n).output = (process st₂ n).output ∧
    unread (process st₁ n).state = unread (process st₂ n).state := by
  by_cases hu : (unread st₁).length < n
  · have hu2 : (unread st₂).length < n := he ▸ hu
    rw [process_underrun st₁ n ((underrun_iff st₁ n h1).mpr hu),
        process_underrun st₂ n ((underrun_iff st₂ n h2).mpr hu2)]
    exact ⟨rfl, he⟩
  · have hn1 : n ≤ (unread st₁).length := Nat.le_of_not_lt hu
    have hn2 : n ≤ (unread st₂).length := he ▸ hn1
    obtain ⟨o1, _, u1, _, _⟩ := process_success st₁ n h1 hn1
    obtain ⟨o2, _, u2, _, _⟩ := process_success st₂ n h2 hn2
    rw [o1, o2, u1, u2, he]
    exact ⟨rfl, rfl⟩

theorem runPulls_congr (ns : List ℕ) :
    ∀ st₁ st₂ : AudioProcessor, bufInv st₁ → bufInv st₂ → unread st₁ = unread st₂ →
      (runPulls st₁ ns).1 = (runPulls st₂ ns).1 ∧
      unread (runPulls st₁ ns).2 = unread (runPulls st₂ ns).2 := by
  induction ns with
  | nil => intro st₁ st₂ _ _ he; exact ⟨rfl, he⟩
  | cons n ns ih =>
    intro st₁ st₂ h1 h2 he
    obtain ⟨ho, hu⟩ := process_congr st₁ st₂ n h1 h2 he
    have hi1 := bufInv_process st₁ n h1
    have hi2 := bufInv_process st₂ n h2
    obtain ⟨r1, r2⟩ := ih (process st₁ n).state (process st₂ n).state hi1 hi2 hu
    constructor
    · show (process st₁ n).output :: _ = (process st₂ n).output :: _
      rw [ho, r1]
    · exact r2

/-! ## Helper lemmas about the PCM codec -/

theorem clamp1_low (s : ℚ) : -1 ≤ clamp1 s := le_max_left _ _

theorem clamp1_high (s : ℚ) : clamp1 s ≤ 1 :=
  max_le (by norm_num) (min_le_left _ _)

theorem clamp1_eq_self (s : ℚ) (h1 : -1 ≤ s) (h2 : s ≤ 1) : clamp1 s = s := by
  unfold clamp1
  rw [min_eq_right h2, max_eq_right h1]

theorem toInt16_eq (q : ℚ) (h1 : -32768 ≤ jsTrunc q) (h2 : jsTrunc q ≤ 32767) :
    toInt16 q = jsTrunc q := by
  unfold toInt16
  split <;> omega

theorem quantizeSample_eq (s : ℚ) :
    quantizeSample s =
      if clamp1 s < 0 then ⌈clamp1 s * 32768⌉ else ⌊clamp1 s * 32767⌋ := by
  unfold quantizeSample
  by_cases hc : clamp1 s < 0
  · rw [if_pos hc, if_pos hc]
    have hneg : clamp1 s * 32768 < 0 := mul_neg_of_neg_of_pos hc (by norm_num)
    have htr : jsTrunc (clamp1 s * 32768) = ⌈clamp1 s * 32768⌉ := if_pos hneg
    have hlow : (-32768 : ℚ) ≤ clamp1 s * 32768 := by
      have := clamp1_low s
      nlinarith
    have h1 : (-32768 : ℤ) ≤ ⌈clamp1 s * 32768⌉ := by
      have hcast : ((-32768 : ℤ) : ℚ) ≤ clamp1 s * 32768 := by exact_mod_cast hlow
      calc (-32768 : ℤ) = ⌈((-32768 : ℤ) : ℚ)⌉ := (Int.ceil_intCast _).symm
        _ ≤ ⌈clamp1 s * 32768⌉ := Int.ceil_le_ceil hcast
    have h2 : ⌈clamp1 s * 32768⌉ ≤ 32767 := by
      have : ⌈clamp1 s * 32768⌉ ≤ (0 : ℤ) := Int.ceil_le.mpr (by push_cast; linarith)
      omega
    rw [toInt16_eq _ (htr ▸ h1) (htr ▸ h2), htr]
  · rw [if_neg hc, if_neg hc]
    have hpos : (0 : ℚ) ≤ clamp1 s := le_of_not_lt hc
    have hnn : (0 : ℚ) ≤ clamp1 s * 32767 := mul_nonneg hpos (by norm_num)
    have htr : jsTrunc (clamp1 s * 32767) = ⌊clamp1 s * 32767⌋ := if_neg (not_lt.mpr hnn)
    have hup : clamp1 s * 32767 ≤ 32767 := by
      have := clamp1_high s
      nlinarith
    have h1 : (-32768 : ℤ) ≤ ⌊clamp1 s * 32767⌋ := by
      have : (0 : ℤ) ≤ ⌊clamp1 s * 32767⌋ := Int.floor_nonneg.mpr hnn
      omega
    have h2 : ⌊clamp1 s * 32767⌋ ≤ 32767 := by
      have hfl : (⌊clamp1 s * 32767⌋ : ℚ) ≤ 32767 := le_trans (Int.floor_le _) hup
      exact_mod_cast hfl
    rw [toInt16_eq _ (htr ▸ h1) (htr ▸ h2), htr]

theorem quantizeSample_range (s : ℚ) :
    -32768 ≤ quantizeSample s ∧ quantizeSample s ≤ 32767 := by
  rw [quantizeSample_eq]
  by_cases hc : clamp1 s < 0
  · rw [if_pos hc]
    have hneg : clamp1 s * 32768 < 0 := mul_neg_of_neg_of_pos hc (by norm_num)
    have hlow : (-32768 : ℚ) ≤ clamp1 s * 32768 := by
      have := clamp1_low s
      nlinarith
    constructor
    · have hcast : ((-32768 : ℤ) : ℚ) ≤ clamp1 s * 32768 := by exact_mod_cast hlow
      calc (-32768 : ℤ) = ⌈((-32768 : ℤ) : ℚ)⌉ := (Int.ceil_intCast _).symm
        _ ≤ ⌈clamp1 s * 32768⌉ := Int.ceil_le_ceil hcast
    · have : ⌈clamp1 s * 32768⌉ ≤ (0 : ℤ) := Int.ceil_le.mpr (by push_cast; linarith)
      omega
  · rw [if_neg hc]
    have hpos : (0 : ℚ) ≤ clamp1 s := le_of_not_lt hc
    have hnn : (0 : ℚ) ≤ clamp1 s * 32767 := mul_nonneg hpos (by norm_num)
    have hup : clamp1 s * 32767 ≤ 32767 := by
      have := clamp1_high s
      nlinarith
    constructor
    · have : (0 : ℤ) ≤ ⌊clamp1 s * 32767⌋ := Int.floor_nonneg.mpr hnn
      omega
    · have hfl : (⌊clamp1 s * 32767⌋ : ℚ) ≤ 32767 := le_trans (Int.floor_le _) hup
      exact_mod_cast hfl

theorem getInt16LE_int16LEBytes (v : ℤ) (h1 : -32768 ≤ v) (h2 : v ≤ 32767) :
    getInt16LE (uint16OfInt v % 256) (uint16OfInt v / 256) = v := by
  unfold getInt16LE uint16OfInt
  split <;> omega

theorem pcmToLEBytes_cons (v : ℤ) (vs : List ℤ) :
    pcmToLEBytes (v :: vs) =
      uint16OfInt v % 256 :: uint16OfInt v / 256 :: pcmToLEBytes vs := by
  simp [pcmToLEBytes, int16LEBytes]

theorem pcm16ToFloat_pcmToLEBytes (pcm : List ℤ)
    (h : ∀ v ∈ pcm, -32768 ≤ v ∧ v ≤ 32767) :
    pcm16ToFloat (pcmToLEBytes pcm) = pcm.map dequantizeSample := by
  induction pcm with
  | nil => rfl
  | cons v vs ih =>
    obtain ⟨hv1, hv2⟩ := h v (List.mem_cons_self _ _)
    rw [pcmToLEBytes_cons, List.map_cons]
    show dequantizeSample (getInt16LE (uint16OfInt v % 256) (uint16OfInt v / 256)) ::
        pcm16ToFloat (pcmToLEBytes vs) = _
    rw [getInt16LE_int16LEBytes v hv1 hv2,
        ih (fun w hw => h w (List.mem_cons_of_mem _ hw))]

theorem pcm16ToFloat_takes_even : ∀ bs : List ℕ,
    pcm16ToFloat bs = pcm16ToFloat (bs.take (2 * (bs.length / 2)))
  | [] => rfl
  | [_] => by simp [pcm16ToFloat]
  | b0 :: b1 :: rest => by
    have ih := pcm16ToFloat_takes_even rest
    have hk : 2 * ((b0 :: b1 :: rest).length / 2) = 2 * (rest.length / 2) + 1 + 1 := by
      simp only [List.length_cons]
      omega
    rw [hk, List.take_succ_cons, List.take_succ_cons]
    show dequantizeSample (getInt16LE b0 b1) :: pcm16ToFloat rest =
      dequantizeSample (getInt16LE b0 b1) ::
        pcm16ToFloat (rest.take (2 * (rest.length / 2)))
    rw [ih]

theorem dequantize_quantize_close (s : ℚ) (h1 : -1 ≤ s) (h2 : s ≤ 1) :
    |dequantizeSample (quantizeSample s) - s| < 2 / 32768 := by
  rw [quantizeSample_eq, clamp1_eq_self s h1 h2]
  by_cases hs : s < 0
  · rw [if_pos hs]
    have hle : (s * 32768 : ℚ) ≤ ((⌈s * 32768⌉ : ℤ) : ℚ) := Int.le_ceil _
    have hlt : ((⌈s * 32768⌉ : ℤ) : ℚ) < s * 32768 + 1 := Int.ceil_lt_add_one _
    unfold dequantizeSample
    rw [abs_lt]
    constructor <;> nlinarith
  · rw [if_neg hs]
    have h0 : (0 : ℚ) ≤ s := le_of_not_lt hs
    have hle : ((⌊s * 32767⌋ : ℤ) : ℚ) ≤ s * 32767 := Int.floor_le _
    have hlt : s * 32767 < ((⌊s * 32767⌋ : ℤ) : ℚ) + 1 := Int.lt_floor_add_one _
    unfold dequantizeSample
    rw [abs_lt]
    constructor <;> nlinarith

/-! ## Claims -/

/-- C1: the claim states that a control stop envelope flushes the playback
buffer (so an immediate pull underruns and returns none of the buffered
samples) and clears the talking flag.  The code only clears the talking
flag: Content.js posts a port message of type stop, but the worklet
handler in audio-processor.js has branches only for the types data and
clear, so the flush branch is dead code and the buffer survives.  This
theorem evaluates the failing input: an engaged session holding three
buffered samples receives the stop envelope; afterwards the talking flag
is false as claimed, but the worklet state is unchanged, and an immediate
pull of two samples reports no underrun and returns the previously
buffered samples. -/
theorem C1_stop_envelope_does_not_flush :
    (stepEnvelope ⟨⟨[1/2, 1/4, 1/8], 0⟩, true, [], true⟩ Envelope.stop).1.talking = false ∧
    (stepEnvelope ⟨⟨[1/2, 1/4, 1/8], 0⟩, true, [], true⟩ Envelope.stop).1.worklet =
      ⟨[1/2, 1/4, 1/8], 0⟩ ∧
    (process (stepEnvelope ⟨⟨[1/2, 1/4, 1/8], 0⟩, true, [], true⟩
        Envelope.stop).1.worklet 2).needData = false ∧
    (process (stepEnvelope ⟨⟨[1/2, 1/4, 1/8], 0⟩, true, [], true⟩
        Envelope.stop).1.worklet 2).output = [1/2, 1/4] :=
  ⟨rfl, rfl, rfl, rfl⟩

/-- C2: the pull contract of the jitter buffer.  When fewer than n unread
samples remain, process posts the needData starvation signal (which is
also the underrun indication) and the rendered block is a zero-padded
partial read of the unread samples (the code returns the empty partial
read: the device quantum stays silent and every buffered sample is kept);
otherwise it returns exactly the next n samples and consumes them,
advancing the cursor by n, except that the compaction step of the same
call may rebase cursor and buffer together without touching the unread
samples. -/
theorem C2_pull_contract (st : AudioProcessor) (n : ℕ) (hinv : bufInv st) :
    ((unread st).length < n →
      (process st n).needData = true ∧
      ∃ k, k ≤ (unread st).length ∧
        (process st n).output = (unread st).take k ++ List.replicate (n - k) 0) ∧
    (n ≤ (unread st).length →
      (process st n).needData = false ∧
      (process st n).output = (unread st).take n ∧
      (process st n).output.length = n ∧
      unread (process st n).state = (unread st).drop n ∧
      ((process st n).state.position = st.position + n ∨
        (sampleRate * 2 < st.position + n ∧ (process st n).state.position = 0))) := by
  constructor
  · intro hund
    have hp := process_underrun st n ((underrun_iff st n hinv).mpr hund)
    rw [hp]
    exact ⟨rfl, 0, Nat.zero_le _, by simp⟩
  · intro hsuff
    obtain ⟨ho, hn, hu, _, hpos⟩ := process_success st n hinv hsuff
    refine ⟨hn, ho, ?_, hu, hpos⟩
    rw [ho, List.length_take]
    omega

theorem C2_pull_contract_witness :
    ((process ⟨[1/2, 1/3], 0⟩ 3).needData = true ∧
      ∃ k, k ≤ (unread ⟨[1/2, 1/3], 0⟩).length ∧
        (process ⟨[1/2, 1/3], 0⟩ 3).output =
          (unread ⟨[1/2, 1/3], 0⟩).take k ++ List.replicate (3 - k) 0) ∧
    ((process ⟨[1/2, 1/3], 0⟩ 2).needData = false ∧
      (process ⟨[1/2, 1/3], 0⟩ 2).output = (unread ⟨[1/2, 1/3], 0⟩).take 2 ∧
      (process ⟨[1/2, 1/3], 0⟩ 2).output.length = 2 ∧
      unread (process ⟨[1/2, 1/3], 0⟩ 2).state = (unread ⟨[1/2, 1/3], 0⟩).drop 2 ∧
      ((process ⟨[1/2, 1/3], 0⟩ 2).state.position = 0 + 2 ∨
        (sampleRate * 2 < 0 + 2 ∧ (process ⟨[1/2, 1/3], 0⟩ 2).state.position = 0))) :=
  ⟨(C2_pull_contract ⟨[1/2, 1/3], 0⟩ 3 (by decide)).1 (by decide),
   (C2_pull_contract ⟨[1/2, 1/3], 0⟩ 2 (by decide)).2 (by decide)⟩

/-- C5: appending any sequence of sample blocks to a fresh buffer and then
pulling with any split of the total length returns exactly the appended
samples in order, each pull fully satisfied, with no loss, duplication or
reordering. -/
theorem C5_append_then_pulls (xss : List (List ℚ)) (ns : List ℕ)
    (hsum : ns.sum = xss.flatten.length) :
    ((runPulls (appendMany initState xss) ns).1).flatten = xss.flatten ∧
    (runPulls (appendMany initState xss) ns).1.map List.length = ns := by
  obtain ⟨hu, hi⟩ := appendMany_spec xss initState (Nat.le_refl 0)
  have hu2 : unread (appendMany initState xss) = xss.flatten := by
    rw [hu]
    rfl
  obtain ⟨h1, h2, _, _⟩ := runPulls_spec ns _ hi (by rw [hu2, hsum])
  refine ⟨?_, h2⟩
  rw [h1, hu2, hsum, List.take_length]

theorem C5_append_then_pulls_witness :
    ((runPulls (appendMany initState [[1/2], [1/3, 1/5]]) [2, 1]).1).flatten =
      ([[1/2], [1/3, 1/5]] : List (List ℚ)).flatten ∧
    (runPulls (appendMany initState [[1/2], [1/3, 1/5]]) [2, 1]).1.map List.length =
      [2, 1] :=
  C5_append_then_pulls [[1/2], [1/3, 1/5]] [2, 1] (by decide)

/-- C8: the invariant "read cursor ≤ logical buffer length" holds in the
constructor state and is preserved by every operation: data append, clear
(flush), and process (both the underrun branch and the sufficient-data
branch with or without compaction). -/
theorem C8_cursor_le_length :
    bufInv initState ∧
    (∀ st audio, bufInv st → bufInv (onmessage st (.data audio))) ∧
    (∀ st, bufInv (onmessage st .clear)) ∧
    (∀ st n, bufInv st → bufInv (process st n).state) :=
  ⟨Nat.le_refl 0, bufInv_append, fun _ => Nat.le_refl 0, bufInv_process⟩

theorem C8_cursor_le_length_witness :
    bufInv (process (onmessage initState (.data [1/2, 1/3])) 1).state :=
  C8_cursor_le_length.2.2.2 _ 1
    (C8_cursor_le_length.2.1 initState [1/2, 1/3] C8_cursor_le_length.1)

/-- C10: an underrun pull leaves the buffer and the read cursor completely
unchanged and returns none of the available samples (the rendered block
is silence), so after appending enough further data every buffered sample
is still returned, in order, by later pulls. -/
theorem C10_underrun_preserves_state (st : AudioProcessor) (n : ℕ)
    (hinv : bufInv st) (hund : (unread st).length < n) :
    (process st n).state = st ∧
    (process st n).output = List.replicate n 0 ∧
    ∀ xs : List ℚ, ∀ ns : List ℕ, ns.sum = (unread st ++ xs).length →
      ((runPulls (onmessage (process st n).state (.data xs)) ns).1).flatten =
        unread st ++ xs := by
  have hp := process_underrun st n ((underrun_iff st n hinv).mpr hund)
  refine ⟨by rw [hp], by rw [hp], ?_⟩
  intro xs ns hsum
  have hst : (process st n).state = st := by rw [hp]
  rw [hst]
  have h1 := unread_append st xs hinv
  have h2 := bufInv_append st xs hinv
  obtain ⟨hflat, _, _, _⟩ := runPulls_spec ns _ h2 (by rw [h1, hsum])
  rw [hflat, h1, hsum, List.take_length]

theorem C10_underrun_preserves_state_witness :
    (process ⟨[1/2], 1⟩ 1).state = ⟨[1/2], 1⟩ ∧
    (process ⟨[1/2], 1⟩ 1).output = List.replicate 1 0 ∧
    ((runPulls (onmessage (process ⟨[1/2], 1⟩ 1).state (.data [1/3])) [1]).1).flatten =
      unread ⟨[1/2], 1⟩ ++ [1/3] :=
  ⟨(C10_underrun_preserves_state ⟨[1/2], 1⟩ 1 (by decide) (by decide)).1,
   (C10_underrun_preserves_state ⟨[1/2], 1⟩ 1 (by decide) (by decide)).2.1,
   (C10_underrun_preserves_state ⟨[1/2], 1⟩ 1 (by decide) (by decide)).2.2
     [1/3] [1] (by decide)⟩

/-- C7 counterexample: the claim quantifies over every buffer state whose
consumed prefix exceeds the 2-second bound and asserts that the NEXT pull
discards the consumed part and resets the cursor.  On the state with
cursor 32001 past the bound sampleRate * 2 = 32000 and no unread samples,
the next pull takes the underrun branch, which returns before the
compaction step: the cursor stays 32001 and the buffer is not
discarded. -/
theorem C7_counterexample :
    sampleRate * 2 < (32001 : ℕ) ∧
    (process ⟨List.replicate 32001 (0 : ℚ), 32001⟩ 128).state.position = 32001 ∧
    (process ⟨List.replicate 32001 (0 : ℚ), 32001⟩ 128).state.buffer =
      List.replicate 32001 (0 : ℚ) := by
  have hp := process_underrun ⟨List.replicate 32001 (0 : ℚ), 32001⟩ 128 (by
    dsimp only
    rw [List.length_replicate]
    omega)
  rw [hp]
  exact ⟨by norm_num [sampleRate, SAMPLE_RATE], rfl, rfl⟩

/-- C7 (amended): compaction is checked after the cursor advance inside a
satisfied pull; whenever a pull finds enough data and the advanced cursor
passes the bound sampleRate * 2 (roughly 2 seconds at the configured
rate), that same pull discards the fully-read part and resets the cursor
to zero, and the compaction leaves the unread samples unchanged: every
subsequent sequence of pulls produces exactly the outputs it would have
produced from the uncompacted state. -/
theorem C7_compaction_preserves_unread (st : AudioProcessor) (n : ℕ)
    (hinv : bufInv st) (hsuff : n ≤ (unread st).length)
    (hbound : sampleRate * 2 < st.position + n) :
    (process st n).state.position = 0 ∧
    (process st n).state.buffer = st.buffer.drop (st.position + n) ∧
    unread (process st n).state = unread ⟨st.buffer, st.position + n⟩ ∧
    ∀ ns : List ℕ, (runPulls (process st n).state ns).1 =
      (runPulls ⟨st.buffer, st.position + n⟩ ns).1 := by
  have hlen := length_unread st
  have h2 : st.position ≤ st.buffer.length := hinv
  have hc : ¬ ((st.buffer.length : ℤ) - (st.position : ℤ) < (n : ℤ)) := by omega
  have hpr : process st n =
      ⟨(st.buffer.drop st.position).take n, false, ⟨st.buffer.drop (st.position + n), 0⟩⟩ := by
    unfold process
    rw [if_neg hc, if_pos hbound]
  rw [hpr]
  have hun : unread (⟨st.buffer.drop (st.position + n), 0⟩ : AudioProcessor) =
      unread ⟨st.buffer, st.position + n⟩ := rfl
  refine ⟨rfl, rfl, hun, ?_⟩
  intro ns
  exact (runPulls_congr ns ⟨st.buffer.drop (st.position + n), 0⟩
    ⟨st.buffer, st.position + n⟩ (Nat.zero_le _) (by simpa [bufInv] using by omega) hun).1

theorem C7_compaction_preserves_unread_witness :
    (process ⟨List.replicate 32002 (0 : ℚ), 32000⟩ 2).state.position = 0 ∧
    (process ⟨List.replicate 32002 (0 : ℚ), 32000⟩ 2).state.buffer =
      (List.replicate 32002 (0 : ℚ)).drop (32000 + 2) ∧
    unread (process ⟨List.replicate 32002 (0 : ℚ), 32000⟩ 2).state =
      unread ⟨List.replicate 32002 (0 : ℚ), 32000 + 2⟩ ∧
    ∀ ns : List ℕ,
      (runPulls (process ⟨List.replicate 32002 (0 : ℚ), 32000⟩ 2).state ns).1 =
      (runPulls ⟨List.replicate 32002 (0 : ℚ), 32000 + 2⟩ ns).1 :=
  C7_compaction_preserves_unread ⟨List.replicate 32002 (0 : ℚ), 32000⟩ 2
    (by simp only [bufInv, List.length_replicate]; decide)
    (by simp only [unread, List.length_drop, List.length_replicate]; decide)
    (by simp only [sampleRate, SAMPLE_RATE]; decide)

/-- C6 counterexample: the payload AAAA is valid base64 and decodes to
three bytes, which is not a valid 16-bit PCM byte sequence; the claim
says processing such an envelope raises/logs a FormatError and changes
neither the buffer nor the talking flag.  Instead the code silently
truncates: new Float32Array(3 / 2) has length 1 (ToIndex truncates the
fractional length, it does not throw), so the dangling third byte is
dropped, the single decoded sample is appended to the worklet buffer and
the talking flag becomes true, with no error logged.  A one-byte payload
AA== likewise logs nothing: the whole envelope is silently ignored. -/
theorem C6_counterexample :
    atob "AAAA" = some [0, 0, 0] ∧
    stepEnvelope ⟨⟨[1/2], 0⟩, false, [], true⟩ (.media "AAAA") =
      (⟨⟨[1/2, 0], 0⟩, true, [], true⟩, false) ∧
    atob "AA==" = some [0] ∧
    stepEnvelope ⟨⟨[1/2], 0⟩, false, [], true⟩ (.media "AA==") =
      (⟨⟨[1/2], 0⟩, false, [], true⟩, false) := by
  have ha : atob "AAAA" = some [0, 0, 0] := by decide
  have ha2 : atob "AA==" = some [0] := by decide
  have hf : pcm16ToFloat [0, 0, 0] = [0] := by
    simp [pcm16ToFloat]
    norm_num [dequantizeSample, getInt16LE]
  have hf2 : pcm16ToFloat [(0 : ℕ)] = [] := by
    simp [pcm16ToFloat]
  refine ⟨ha, ?_, ha2, ?_⟩
  · simp [stepEnvelope, ha, hf, onmessage]
  · simp [stepEnvelope, ha2, hf2]

/-- C6 (amended): a media envelope whose payload is not valid base64
(atob rejects it) is caught by the handler: the error is logged (second
component true), the controller state — worklet buffer, talking flag,
transcript, and the open socket — is completely unchanged, and any
subsequent envelopes are processed exactly as if the malformed envelope
had never arrived.  A payload that IS valid base64, however, is never
rejected for its byte count: the decode silently keeps only the whole
two-byte sample pairs (a dangling final byte is dropped by the truncated
Float32Array length), and when at least one sample remains it is
appended with the talking flag set and no error; an empty result does
nothing. -/
theorem C6_media_error_handling (cs : ControllerState) (payload : String) :
    (atob payload = none →
      stepEnvelope cs (.media payload) = (cs, true) ∧
      ∀ rest : List Envelope,
        runEnvelopes cs (Envelope.media payload :: rest) = runEnvelopes cs rest) ∧
    (∀ bytes, atob payload = some bytes →
      stepEnvelope cs (.media payload) =
        (if 0 < (pcm16ToFloat bytes).length then
          ({ cs with
              worklet := onmessage cs.worklet (.data (pcm16ToFloat bytes)),
              talking := true }, false)
        else (cs, false)) ∧
      pcm16ToFloat bytes = pcm16ToFloat (bytes.take (2 * (bytes.length / 2)))) := by
  constructor
  · intro h
    have h1 : stepEnvelope cs (.media payload) = (cs, true) := by
      simp [stepEnvelope, h]
    refine ⟨h1, fun rest => ?_⟩
    show runEnvelopes (stepEnvelope cs (.media payload)).1 rest = runEnvelopes cs rest
    rw [h1]
  · intro bytes hb
    refine ⟨?_, pcm16ToFloat_takes_even bytes⟩
    simp [stepEnvelope, hb]

theorem C6_media_error_handling_witness :
    (stepEnvelope ⟨⟨[1/2], 0⟩, true, [], true⟩ (.media "!!!!") =
        (⟨⟨[1/2], 0⟩, true, [], true⟩, true) ∧
      runEnvelopes ⟨⟨[1/2], 0⟩, true, [], true⟩
          [Envelope.media "!!!!", Envelope.media "AAA="] =
        runEnvelopes ⟨⟨[1/2], 0⟩, true, [], true⟩ [Envelope.media "AAA="]) ∧
    (stepEnvelope ⟨⟨[1/2], 0⟩, true, [], true⟩ (.media "AAAA") =
        (if 0 < (pcm16ToFloat [0, 0, 0]).length then
          ({ (⟨⟨[1/2], 0⟩, true, [], true⟩ : ControllerState) with
              worklet := onmessage
                (⟨⟨[1/2], 0⟩, true, [], true⟩ : ControllerState).worklet
                (.data (pcm16ToFloat [0, 0, 0])),
              talking := true }, false)
        else (⟨⟨[1/2], 0⟩, true, [], true⟩, false)) ∧
      pcm16ToFloat [0, 0, 0] =
        pcm16ToFloat ([0, 0, 0].take (2 * ([0, 0, 0].length / 2)))) :=
  ⟨⟨((C6_media_error_handling ⟨⟨[1/2], 0⟩, true, [], true⟩ "!!!!").1 (by decide)).1,
    ((C6_media_error_handling ⟨⟨[1/2], 0⟩, true, [], true⟩ "!!!!").1 (by decide)).2
      [Envelope.media "AAA="]⟩,
   (C6_media_error_handling ⟨⟨[1/2], 0⟩, true, [], true⟩ "AAAA").2
     [0, 0, 0] (by decide)⟩

/-- C3 counterexample: the claim says quantize maps a nonnegative sample s
to round(s * 32767), but floatToPcm16 stores s * 0x7FFF into an
Int16Array, which truncates toward zero: at s = 1/2 the product is
16383.5, the code produces 16383 while the claimed rounding gives
16384. -/
theorem C3_counterexample :
    floatToPcm16 [1/2] = [16383] ∧
    round ((1 : ℚ)/2 * 32767) = 16384 ∧
    floatToPcm16 [1/2] ≠ [round ((1 : ℚ)/2 * 32767)] := by
  have hq : quantizeSample (1/2 : ℚ) = 16383 := by
    rw [quantizeSample_eq, clamp1_eq_self _ (by norm_num) (by norm_num),
      if_neg (by norm_num : ¬ ((1 : ℚ)/2 < 0))]
    norm_num
  have hr : round ((1 : ℚ)/2 * 32767) = 16384 := by
    rw [round_eq]
    norm_num
  have h1 : floatToPcm16 [1/2] = [(16383 : ℤ)] := by
    show [quantizeSample (1/2 : ℚ)] = [(16383 : ℤ)]
    rw [hq]
  refine ⟨h1, hr, ?_⟩
  rw [h1, hr]
  decide

/-- C3 (amended): quantize truncates toward zero instead of rounding:
after clamping to the interval from -1 to 1, a negative sample c maps to
the ceiling of c * 32768 (truncation toward zero of a negative product)
and a nonnegative sample c maps to the floor of c * 32767, preserving
sample order and count. -/
theorem C3_quantize_truncates (input : List ℚ) :
    floatToPcm16 input =
      input.map (fun s =>
        if clamp1 s < 0 then ⌈clamp1 s * 32768⌉ else ⌊clamp1 s * 32767⌋) ∧
    (floatToPcm16 input).length = input.length := by
  constructor
  · simp only [floatToPcm16]
    exact List.map_congr_left (fun s _ => quantizeSample_eq s)
  · simp [floatToPcm16]

/-- C4 counterexample: at the sample s = 65535/65536 (exactly
representable as a 32-bit float) the truncating quantizer produces 32766,
which dequantizes to 16383/16384, an error of 3/65536, strictly larger
than the claimed bound 1/32768 = 2/65536. -/
theorem C4_counterexample :
    pcm16ToFloat (pcmToLEBytes (floatToPcm16 [65535/65536])) = [16383/16384] ∧
    1/32768 < |(16383/16384 : ℚ) - 65535/65536| := by
  have hq : quantizeSample (65535/65536 : ℚ) = 32766 := by
    rw [quantizeSample_eq, clamp1_eq_self _ (by norm_num) (by norm_num),
      if_neg (by norm_num : ¬ ((65535 : ℚ)/65536 < 0))]
    norm_num
  constructor
  · have hrt := pcm16ToFloat_pcmToLEBytes [quantizeSample (65535/65536 : ℚ)]
      (by
        intro v hv
        rw [List.mem_singleton] at hv
        rw [hv]
        exact quantizeSample_range _)
    have : floatToPcm16 [65535/65536] = [quantizeSample (65535/65536 : ℚ)] := rfl
    rw [this, hrt, hq]
    simp only [List.map_cons, List.map_nil]
    norm_num [dequantizeSample]
  · rw [show (16383 : ℚ)/16384 - 65535/65536 = -(3/65536) by norm_num, abs_neg,
      abs_of_nonneg (by norm_num : (0 : ℚ) ≤ 3/65536)]
    norm_num

/-- C4 (amended): the codec pair is an approximate round trip, but with
quantization error bounded by 2/32768 (strictly), not 1/32768: for every
sample s in the interval from -1 to 1, running the quantizer and then the
byte-level dequantizer returns a single sample differing from s by less
than 2/32768.  (The 1/32768 bound does hold for nonpositive samples; the
truncating positive branch loses up to one extra quantization step.) -/
theorem C4_roundtrip_error (s : ℚ) (h1 : -1 ≤ s) (h2 : s ≤ 1) :
    pcm16ToFloat (pcmToLEBytes (floatToPcm16 [s])) =
      [dequantizeSample (quantizeSample s)] ∧
    |dequantizeSample (quantizeSample s) - s| < 2/32768 := by
  constructor
  · have hrt := pcm16ToFloat_pcmToLEBytes [quantizeSample s]
      (by
        intro v hv
        rw [List.mem_singleton] at hv
        rw [hv]
        exact quantizeSample_range _)
    have hfp : floatToPcm16 [s] = [quantizeSample s] := rfl
    rw [hfp, hrt]
    rfl
  · exact dequantize_quantize_close s h1 h2

theorem C4_roundtrip_error_witness :
    pcm16ToFloat (pcmToLEBytes (floatToPcm16 [(0 : ℚ)])) =
      [dequantizeSample (quantizeSample (0 : ℚ))] ∧
    |dequantizeSample (quantizeSample (0 : ℚ)) - 0| < 2/32768 :=
  C4_roundtrip_error 0 (neg_nonpos.mpr zero_le_one) zero_le_one

/-- C9: for every captured input frame, the capture handler sends exactly
the base64 text of the little-endian byte serialization of the 16-bit PCM
quantization of the frame, and only when the socket exists and its
readyState is OPEN; in every other transport state nothing is sent and
the handler returns normally. -/
theorem C9_capture_sends_base64_pcm (input : List ℚ) (ws : Option WsState) :
    (ws = some WsState.Open →
      onaudioprocess input ws = some (btoa (pcmToLEBytes (floatToPcm16 input)))) ∧
    (ws ≠ some WsState.Open → onaudioprocess input ws = none) := by
  constructor
  · intro h
    rw [h]
    rfl
  · intro h
    cases ws with
    | none => rfl
    | some s =>
      cases s with
      | Connecting => rfl
      | Open => exact absurd rfl h
      | Closing => rfl
      | Closed => rfl

theorem C9_capture_sends_base64_pcm_witness :
    onaudioprocess [1/2] (some WsState.Open) =
      some (btoa (pcmToLEBytes (floatToPcm16 [1/2]))) ∧
    onaudioprocess [1/2] (some WsState.Closed) = none :=
  ⟨(C9_capture_sends_base64_pcm [1/2] (some WsState.Open)).1 rfl,
   (C9_capture_sends_base64_pcm [1/2] (some WsState.Closed)).2 (by decide)⟩
